import Mathlib

/-!
Verification of the aviation-exam backend's core session/grading logic.

The JavaScript routes are shallowly embedded: each Express handler body
(after database lookup and authentication, which are environment concerns)
becomes a pure Lean function on the record types mirroring the Mongoose
schemas.  Times are integers (epoch seconds or milliseconds as in the
source); JavaScript values are modelled by their two coercions used in the
code, `String(v)` and `Number(v)` (with `none` standing in for `NaN`).
-/

namespace AvExam

/-- A JavaScript value as the grading code observes it: its string coercion
`String(v)` and its numeric coercion `Number(v)` (`none` when the coercion
yields `NaN`). -/
structure JsVal where
  text : String
  num : Option Int
deriving DecidableEq, Repr

/-- Question type tag: `"mcq"` or short numeric answer (the `else` branch). -/
inductive QType where
  | mcq
  | shortAnswer
deriving DecidableEq, Repr

/-- Exam type tag from the exam schema: `"timed"` or `"untimed"`. -/
inductive EType where
  | timed
  | untimed
deriving DecidableEq, Repr

/-- Assignment status from the schema enum: `"active"` or `"disabled"`. -/
inductive AStatus where
  | active
  | disabled
deriving DecidableEq, Repr

/-- The fields of the Question model that grading reads.  `plusT`/`minusT`
are stored as their numeric coercions (`none` = absent or unparsable,
matching `Number(q.plusT) || 0` defaulting). -/
structure Question where
  qid : Nat
  qtype : QType
  correctAnswer : JsVal
  plusT : Option Int
  minusT : Option Int
  marks : Int
deriving DecidableEq, Repr

/-- The fields of the Exam model the session routes read. -/
structure Exam where
  etype : EType
  duration : Int
  questions : List Nat
deriving DecidableEq, Repr

/-- The fields of the ExamAssignment model the session routes read. -/
structure Assignment where
  allowedAttempts : Int
  attemptsUsed : Int
  opensAt : Int
  closesAt : Int
  status : AStatus
deriving DecidableEq, Repr

/-- The ExamSession record.  `submittedAt`, `runAt`, `pausedAt` are nullable
timestamps; `resumedAt`/`timeConsumedBeforeResume` are the second timer
bookkeeping scheme read by `calculateRemainingTime` and written by the
resume endpoint. -/
structure Session where
  grade : Int
  submittedAt : Option Int
  isRunning : Bool
  runAt : Option Int
  pausedAt : Option Int
  totalTimeConsumed : Int
  resumedAt : Option Int
  timeConsumedBeforeResume : Int
  answeredQuestions : List Nat
  bookmarkedQuestions : List Nat
deriving DecidableEq, Repr

/-- A SubmittedAnswer record. -/
structure AnswerRec where
  aid : Nat
  questionId : Nat
  submittedValue : JsVal
  isCorrect : Bool
deriving DecidableEq, Repr

/-- The spec's error taxonomy, covering the routes' 4xx responses. -/
inductive ApiError where
  | invalidInput
  | notFound
  | forbidden
  | notEligible
  | conflict
deriving DecidableEq, Repr

/-- Grading (both answer-route versions): for `"mcq"`,
`String(submittedValue) === String(q.correctAnswer)`; otherwise parse both
sides as numbers (any `NaN` grades incorrect) and accept when
`correct - minusT <= sub <= correct + plusT`, tolerances defaulting to 0. -/
def isCorrectFor (q : Question) (v : JsVal) : Bool :=
  match q.qtype with
  | .mcq => v.text == q.correctAnswer.text
  | .shortAnswer =>
    match v.num, q.correctAnswer.num with
    | some sub, some correct =>
      let plusT := q.plusT.getD 0
      let minusT := q.minusT.getD 0
      decide (correct - minusT ≤ sub ∧ sub ≤ correct + plusT)
    | _, _ => false

/-- The next-question linear scan used by the answer route, the resume route
and the last-answer route: `questions.findIndex(q => !answered.includes(q))`,
with `none` for JavaScript's `-1`. -/
def nextQuestionIndex (questions : List Nat) (answered : List Nat) : Option Nat :=
  match questions with
  | [] => none
  | q :: rest =>
    if answered.contains q then (nextQuestionIndex rest answered).map (· + 1)
    else some 0

/-- Replace the first stored answer for `qid` with the new submitted value
and correctness — the `answer.save()` of the update branch. -/
def updateFirstAnswer (answers : List AnswerRec) (qid : Nat) (v : JsVal)
    (isC : Bool) : List AnswerRec :=
  match answers with
  | [] => []
  | a :: rest =>
    if a.questionId = qid then
      { a with submittedValue := v, isCorrect := isC } :: rest
    else a :: updateFirstAnswer rest qid v isC

/-- What one answer submission returns and leaves behind. -/
structure SubmitAnswerOutcome where
  session : Session
  answers : List AnswerRec
  isCorrect : Bool
  nqIndex : Option Nat
  isLastQuestion : Bool
deriving DecidableEq, Repr

/-- The update-or-create answer submission route (`POST /` on submitted
answers, reconciliation version).  `q` is the question document found for
the submitted id, `answers` the stored answers of this session, `freshAid`
the identity Mongo would mint for a new answer.  Embeds the handler from
the `submittedAt` guard on: conflict when finalized, invalid input when the
question is not in the exam, then grade reconciliation between the previous
and new correctness, then the next-question scan over all stored answers. -/
def submitAnswer (exam : Exam) (q : Question) (v : JsVal) (s : Session)
    (answers : List AnswerRec) (freshAid : Nat) :
    Except ApiError SubmitAnswerOutcome :=
  if s.submittedAt.isSome then .error .conflict
  else if !(exam.questions.contains q.qid) then .error .invalidInput
  else
    let isC := isCorrectFor q v
    let gradeChange : Int := if isC then q.marks else 0
    match answers.find? (fun a => a.questionId == q.qid) with
    | some prev =>
      let previousGradeContribution : Int := if prev.isCorrect then q.marks else 0
      let answers' := updateFirstAnswer answers q.qid v isC
      let grade' :=
        if prev.isCorrect && !isC then s.grade - previousGradeContribution
        else if !prev.isCorrect && isC then s.grade + gradeChange
        else s.grade
      let s' := { s with grade := grade' }
      let nqi := nextQuestionIndex exam.questions (answers'.map (·.questionId))
      .ok { session := s', answers := answers', isCorrect := isC,
            nqIndex := nqi, isLastQuestion := nqi = none }
    | none =>
      let newAns : AnswerRec :=
        { aid := freshAid, questionId := q.qid, submittedValue := v, isCorrect := isC }
      let answers' := answers ++ [newAns]
      let s' := { s with grade := s.grade + gradeChange,
                         answeredQuestions := s.answeredQuestions ++ [freshAid] }
      let nqi := nextQuestionIndex exam.questions (answers'.map (·.questionId))
      .ok { session := s', answers := answers', isCorrect := isC,
            nqIndex := nqi, isLastQuestion := nqi = none }

/-- The spec's reconciliation table (section 4.3), written from the spec's
words for comparison with the code's grade update. -/
def specGradeDelta (prev : Option Bool) (newCorrect : Bool) (marks : Int) : Int :=
  match prev, newCorrect with
  | none, true => marks
  | none, false => 0
  | some true, true => 0
  | some true, false => -marks
  | some false, true => marks
  | some false, false => 0

/-- Result of an operation that either errs (leaving state untouched) or
writes back a session and its assignment. -/
structure StepResult where
  error : Option ApiError
  session : Session
  assignment : Assignment
deriving DecidableEq, Repr

/-- The explicit finalize route `POST /:sessionId/submit`: conflict when
`submittedAt` is already set (before any write); otherwise stamp
`submittedAt`, stop the timer fields, and increment the assignment's
`attemptsUsed`. -/
def submitExam (s : Session) (a : Assignment) (now : Int) : StepResult :=
  if s.submittedAt.isSome then { error := some .conflict, session := s, assignment := a }
  else
    { error := none,
      session := { s with submittedAt := some now, isRunning := false,
                          runAt := none, pausedAt := none },
      assignment := { a with attemptsUsed := a.attemptsUsed + 1 } }

/-- `calculateRemainingTime` from the sessions router: `none` for an
untimed exam (checked first), `0` once submitted, else duration minus
consumed time in the resume bookkeeping scheme, clamped at zero. -/
def calculateRemainingTime (exam : Exam) (s : Session) (now : Int) : Option Int :=
  if exam.etype = .untimed then none
  else if s.submittedAt.isSome then some 0
  else
    let consumed :=
      match s.resumedAt with
      | some r => s.timeConsumedBeforeResume + (now - r)
      | none => s.timeConsumedBeforeResume
    let remaining := exam.duration - consumed
    some (if remaining > 0 then remaining else 0)

/-- The `GET /remaining-time/:sessionId` handler: same untimed-first,
submitted-second ordering, but consumed time is `totalTimeConsumed`. -/
def remainingTimeQuery (exam : Exam) (s : Session) : Option Int :=
  if exam.etype = .untimed then none
  else if s.submittedAt.isSome then some 0
  else
    let timeConsumed := s.totalTimeConsumed
    let remainingTime := exam.duration - timeConsumed
    some (if remainingTime > 0 then remainingTime else 0)

/-- The WebSocket on-connect update: unconditionally set
`isRunning := true`, `runAt := now`, clear `pausedAt` on the found session
(there is no finalized check in the handler). -/
def wsConnect (s : Session) (now : Int) : Session :=
  { s with isRunning := true, runAt := some now, pausedAt := none }

/-- The WebSocket on-close handler: with `runAtTime = runAt ?? now` (in
milliseconds), add `Math.floor((now - runAtTime) / 1000)` to
`totalTimeConsumed`, clear the running flag and stamp `pausedAt`. -/
def wsClose (s : Session) (nowMs : Int) : Session :=
  let runAtTime := s.runAt.getD nowMs
  let timeInThisRun := Int.fdiv (nowMs - runAtTime) 1000
  { s with isRunning := false, pausedAt := some nowMs,
           totalTimeConsumed := s.totalTimeConsumed + timeInThisRun }

/-- The `POST /resume/:sessionId` handler after lookup and ownership:
conflict when already submitted; 400 when every question is answered;
otherwise stamp `resumedAt := now` (no other timer field is touched). -/
def resumeSession (exam : Exam) (answered : List Nat) (s : Session)
    (now : Int) : Except ApiError Session :=
  if s.submittedAt.isSome then .error .conflict
  else
    match nextQuestionIndex exam.questions answered with
    | none => .error .invalidInput
    | some _ => .ok { s with resumedAt := some now }

/-- The eligibility guards shared by both start-session handlers: active
status, attempts remaining, inside the open/close window. -/
def startChecks (a : Assignment) (now : Int) : Option ApiError :=
  if a.status ≠ .active then some .notEligible
  else if a.allowedAttempts ≤ a.attemptsUsed then some .notEligible
  else if now < a.opensAt ∨ a.closesAt < now then some .notEligible
  else none

/-- A freshly created session, per the schema defaults and the
`new ExamSession({ assignmentId, grade: 0, submittedAt: null })` call. -/
def newSession : Session :=
  { grade := 0, submittedAt := none, isRunning := false, runAt := none,
    pausedAt := none, totalTimeConsumed := 0, resumedAt := none,
    timeConsumedBeforeResume := 0, answeredQuestions := [],
    bookmarkedQuestions := [] }

/-- The `POST /start` handler of the sessions router: after the
eligibility guards it creates a new session unconditionally — there is no
check for an existing open session.  `sessions` is the stored session list
for the assignment. -/
def startSessionUnchecked (a : Assignment) (sessions : List Session)
    (now : Int) : Except ApiError (List Session) :=
  match startChecks a now with
  | some e => .error e
  | none => .ok (sessions ++ [newSession])

/-- The other `POST /start` handler (the one shipped next to the answers
router): after the same guards, `findOne({assignmentId, submittedAt: null})`
returns the existing open session instead of creating a second one.  The
boolean reports whether a session was created. -/
def startSessionGuarded (a : Assignment) (sessions : List Session)
    (now : Int) : Except ApiError (List Session × Bool) :=
  match startChecks a now with
  | some e => .error e
  | none =>
    match sessions.find? (fun s => decide (s.submittedAt = none)) with
    | some _ => .ok (sessions, false)
    | none => .ok (sessions ++ [newSession], true)

/-- How many open (non-finalized) sessions a stored list holds. -/
def openCount (sessions : List Session) : Nat :=
  (sessions.filter (fun s => decide (s.submittedAt = none))).length

/-- Remove the first occurrence of `qid` — the `findIndex` + `splice(i, 1)`
pair of the bookmark toggle. -/
def removeFirstOcc (l : List Nat) (qid : Nat) : List Nat :=
  match l with
  | [] => []
  | x :: xs => if x = qid then xs else x :: removeFirstOcc xs qid

/-- The bookmark toggle route `POST /:sessionId/bookmark/:questionId`:
conflict when finalized, invalid input when the question is not in the
exam; otherwise remove the first stored occurrence when present
(`findIndex` + `splice`), else push the question id.  The boolean is the
reported action (`true` = bookmarked). -/
def toggleBookmark (exam : Exam) (s : Session) (qid : Nat) :
    Except ApiError (Session × Bool) :=
  if s.submittedAt.isSome then .error .conflict
  else if !(exam.questions.contains qid) then .error .invalidInput
  else if s.bookmarkedQuestions.contains qid then
    .ok ({ s with bookmarkedQuestions := removeFirstOcc s.bookmarkedQuestions qid },
         false)
  else
    .ok ({ s with bookmarkedQuestions := s.bookmarkedQuestions ++ [qid] }, true)

/-! ## Helper lemmas -/

/-- `Array.includes` / `List.contains` agrees with membership on `Nat`. -/
lemma contains_iff_mem (l : List Nat) (a : Nat) : l.contains a = true ↔ a ∈ l :=
  List.elem_iff

/-- The grade written by a successful answer submission is the old grade
plus the spec table's delta for the observed correctness transition. -/
lemma submitAnswer_grade_eq (exam : Exam) (q : Question) (v : JsVal)
    (s : Session) (answers : List AnswerRec) (freshAid : Nat)
    (hsub : s.submittedAt = none)
    (hmem : exam.questions.contains q.qid = true) :
    ∃ out, submitAnswer exam q v s answers freshAid = .ok out ∧
      out.session.grade = s.grade +
        specGradeDelta
          ((answers.find? (fun a => a.questionId == q.qid)).map (fun a => a.isCorrect))
          (isCorrectFor q v) q.marks := by
  unfold submitAnswer
  rw [hsub]
  simp only [Option.isSome_none, Bool.false_eq_true, if_false, hmem, Bool.not_true]
  cases hfind : answers.find? (fun a => a.questionId == q.qid) with
  | none =>
    refine ⟨_, rfl, ?_⟩
    cases hC : isCorrectFor q v <;> simp [specGradeDelta]
  | some prev =>
    refine ⟨_, rfl, ?_⟩
    cases hP : prev.isCorrect <;> cases hC : isCorrectFor q v <;>
      simp [specGradeDelta, hP, hC] <;> omega

/-! ## C4: short-numeric tolerance band -/

/-- C4: for a short-numeric question with correct value `C` and tolerances
`U = plusT` (default 0) and `L = minusT` (default 0), an unparsable
submission is incorrect, and a parsed value `n` is correct iff
`C - L ≤ n ≤ C + U`; in particular `C - L` and `C + U` are correct while
`C - L - 1` and `C + U + 1` are incorrect. -/
theorem shortAnswer_tolerance_band (q : Question) (C : Int)
    (hq : q.qtype = .shortAnswer) (hc : q.correctAnswer.num = some C)
    (hU : 0 ≤ q.plusT.getD 0) (hL : 0 ≤ q.minusT.getD 0) :
    (∀ v : JsVal, v.num = none → isCorrectFor q v = false) ∧
    (∀ (v : JsVal) (n : Int), v.num = some n →
      (isCorrectFor q v = true ↔
        C - q.minusT.getD 0 ≤ n ∧ n ≤ C + q.plusT.getD 0)) ∧
    (∀ v : JsVal, v.num = some (C - q.minusT.getD 0) → isCorrectFor q v = true) ∧
    (∀ v : JsVal, v.num = some (C + q.plusT.getD 0) → isCorrectFor q v = true) ∧
    (∀ v : JsVal, v.num = some (C - q.minusT.getD 0 - 1) → isCorrectFor q v = false) ∧
    (∀ v : JsVal, v.num = some (C + q.plusT.getD 0 + 1) → isCorrectFor q v = false) := by
  have key : ∀ (v : JsVal) (n : Int), v.num = some n →
      (isCorrectFor q v = true ↔
        C - q.minusT.getD 0 ≤ n ∧ n ≤ C + q.plusT.getD 0) := by
    intro v n hv
    simp [isCorrectFor, hq, hv, hc]
  have keyNaN : ∀ v : JsVal, v.num = none → isCorrectFor q v = false := by
    intro v hv
    simp [isCorrectFor, hq, hv]
  refine ⟨keyNaN, key, ?_, ?_, ?_, ?_⟩
  · intro v hv
    exact (key v _ hv).2 ⟨le_refl _, by omega⟩
  · intro v hv
    exact (key v _ hv).2 ⟨by omega, le_refl _⟩
  · intro v hv
    cases hb : isCorrectFor q v
    · rfl
    · exact absurd ((key v _ hv).1 hb) (by omega)
  · intro v hv
    cases hb : isCorrectFor q v
    · rfl
    · exact absurd ((key v _ hv).1 hb) (by omega)

/-- Concrete short-numeric question: correct 10, `plusT` 2, `minusT` 3. -/
def qNum : Question :=
  { qid := 1, qtype := .shortAnswer, correctAnswer := { text := "10", num := some 10 },
    plusT := some 2, minusT := some 3, marks := 5 }

/-- Witness for C4 at `qNum`: 7 (= C - L) is accepted, 6 (= C - L - 1)
rejected. -/
theorem shortAnswer_tolerance_band_witness :
    isCorrectFor qNum { text := "7", num := some 7 } = true ∧
    isCorrectFor qNum { text := "6", num := some 6 } = false := by
  have h := shortAnswer_tolerance_band qNum 10 rfl rfl (by decide) (by decide)
  exact ⟨h.2.2.1 _ rfl, h.2.2.2.2.1 _ rfl⟩

/-! ## C1: grade delta follows the reconciliation table -/

/-- C1: a successful answer submission to a non-finalized session changes
the session grade by exactly the spec's reconciliation-table delta for the
transition between the previous correctness of the (session, question)
pair (`none` = no prior answer) and the new correctness. -/
theorem submitAnswer_matches_grade_table (exam : Exam) (q : Question)
    (v : JsVal) (s : Session) (answers : List AnswerRec) (freshAid : Nat)
    (hsub : s.submittedAt = none)
    (hmem : exam.questions.contains q.qid = true) :
    ∃ out, submitAnswer exam q v s answers freshAid = .ok out ∧
      out.session.grade - s.grade =
        specGradeDelta
          ((answers.find? (fun a => a.questionId == q.qid)).map (fun a => a.isCorrect))
          (isCorrectFor q v) q.marks := by
  obtain ⟨out, hout, hg⟩ := submitAnswer_grade_eq exam q v s answers freshAid hsub hmem
  exact ⟨out, hout, by omega⟩

/-- A one-question exam holding `qNum`. -/
def examNum : Exam := { etype := .timed, duration := 600, questions := [1] }

/-- Witness for C1: first correct submission of `qNum`'s answer to a fresh
session raises the grade from 0 by `marks = 5`. -/
theorem submitAnswer_matches_grade_table_witness :
    ∃ out, submitAnswer examNum qNum { text := "10", num := some 10 }
        newSession [] 7 = .ok out ∧
      out.session.grade - newSession.grade =
        specGradeDelta none (isCorrectFor qNum { text := "10", num := some 10 })
          qNum.marks := by
  have h := submitAnswer_matches_grade_table examNum qNum
    { text := "10", num := some 10 } newSession [] 7 rfl (by decide)
  simpa using h

/-! ## C6: resubmitting a correct answer leaves the grade unchanged -/

/-- C6: on a non-finalized session, when the stored answer for the question
is correct and the resubmitted value also grades correct, the submission
succeeds and the running grade is unchanged. -/
theorem submitAnswer_resubmit_correct_idempotent (exam : Exam) (q : Question)
    (v : JsVal) (s : Session) (answers : List AnswerRec) (freshAid : Nat)
    (prev : AnswerRec)
    (hsub : s.submittedAt = none)
    (hmem : exam.questions.contains q.qid = true)
    (hfind : answers.find? (fun a => a.questionId == q.qid) = some prev)
    (hprev : prev.isCorrect = true)
    (hnew : isCorrectFor q v = true) :
    ∃ out, submitAnswer exam q v s answers freshAid = .ok out ∧
      out.session.grade = s.grade := by
  obtain ⟨out, hout, hg⟩ := submitAnswer_grade_eq exam q v s answers freshAid hsub hmem
  refine ⟨out, hout, ?_⟩
  rw [hg, hfind, Option.map_some', hprev, hnew]
  simp [specGradeDelta]

/-- The stored correct answer used by the C6 witness. -/
def prevCorrectAns : AnswerRec :=
  { aid := 7, questionId := 1, submittedValue := { text := "10", num := some 10 },
    isCorrect := true }

/-- Witness for C6: resubmitting the correct value over a stored correct
answer leaves the grade of a session at its current value. -/
theorem submitAnswer_resubmit_correct_idempotent_witness :
    ∃ out, submitAnswer examNum qNum { text := "10", num := some 10 }
        newSession [prevCorrectAns] 8 = .ok out ∧
      out.session.grade = newSession.grade := by
  exact submitAnswer_resubmit_correct_idempotent examNum qNum
    { text := "10", num := some 10 } newSession [prevCorrectAns] 8
    prevCorrectAns rfl (by decide) (by decide) rfl rfl

/-! ## C2: double finalize -/

/-- C2: explicitly finalizing a non-finalized session succeeds, stamps
`submittedAt` and increments `attemptsUsed` once; finalizing again fails
with a conflict and returns the state untouched, so the counter is
incremented exactly once across both calls. -/
theorem submitExam_double_conflict (s : Session) (a : Assignment)
    (now1 now2 : Int) (hsub : s.submittedAt = none) :
    (submitExam s a now1).error = none ∧
    (submitExam s a now1).session.submittedAt = some now1 ∧
    (submitExam s a now1).assignment.attemptsUsed = a.attemptsUsed + 1 ∧
    (submitExam (submitExam s a now1).session (submitExam s a now1).assignment
        now2).error = some .conflict ∧
    (submitExam (submitExam s a now1).session (submitExam s a now1).assignment
        now2).session = (submitExam s a now1).session ∧
    (submitExam (submitExam s a now1).session (submitExam s a now1).assignment
        now2).assignment = (submitExam s a now1).assignment := by
  simp [submitExam, hsub]

/-- An eligible assignment with no attempt used yet. -/
def aActive : Assignment :=
  { allowedAttempts := 2, attemptsUsed := 0, opensAt := 0, closesAt := 1000,
    status := .active }

/-- Witness for C2 on a fresh session and `aActive`. -/
theorem submitExam_double_conflict_witness :
    (submitExam newSession aActive 100).error = none ∧
    (submitExam (submitExam newSession aActive 100).session
        (submitExam newSession aActive 100).assignment 200).error =
      some .conflict ∧
    (submitExam (submitExam newSession aActive 100).session
        (submitExam newSession aActive 100).assignment 200).assignment.attemptsUsed =
      aActive.attemptsUsed + 1 := by
  have h := submitExam_double_conflict newSession aActive 100 200 rfl
  exact ⟨h.1, h.2.2.2.1, by rw [h.2.2.2.2.2]; exact h.2.2.1⟩

/-! ## C3: remaining time (corrected) -/

/-- An untimed exam. -/
def untimedExam : Exam := { etype := .untimed, duration := 3600, questions := [1, 2] }

/-- A timed exam. -/
def timedExam : Exam := { etype := .timed, duration := 3600, questions := [1, 2] }

/-- A finalized session. -/
def finalizedSession : Session := { newSession with submittedAt := some 100 }

/-- C3 counterexample: both remaining-time computations check the untimed
branch before the finalized branch, so a finalized session of an untimed
exam gets `none` (unavailable), not the claimed zero. -/
theorem remainingTime_untimed_finalized_cx :
    finalizedSession.submittedAt ≠ none ∧
    calculateRemainingTime untimedExam finalizedSession 200 = none ∧
    calculateRemainingTime untimedExam finalizedSession 200 ≠ some 0 ∧
    remainingTimeQuery untimedExam finalizedSession = none ∧
    remainingTimeQuery untimedExam finalizedSession ≠ some 0 := by
  decide

/-- C3 amended: the remaining-time computations never return a negative
number; a finalized session of a *timed* exam gets exactly zero; an
untimed exam always gets `none` (unavailable), finalized or not. -/
theorem remainingTime_amended (exam : Exam) (s : Session) (now : Int) :
    (∀ r, calculateRemainingTime exam s now = some r → 0 ≤ r) ∧
    (exam.etype = .timed → s.submittedAt ≠ none →
      calculateRemainingTime exam s now = some 0) ∧
    (exam.etype = .untimed → calculateRemainingTime exam s now = none) ∧
    (∀ r, remainingTimeQuery exam s = some r → 0 ≤ r) ∧
    (exam.etype = .timed → s.submittedAt ≠ none →
      remainingTimeQuery exam s = some 0) ∧
    (exam.etype = .untimed → remainingTimeQuery exam s = none) := by
  cases hety : exam.etype
  · cases hsubm : s.submittedAt with
    | none =>
      refine ⟨?_, ?_, ?_, ?_, ?_, ?_⟩
      · intro r hr
        simp only [calculateRemainingTime, hety, hsubm] at hr
        simp at hr
        split at hr <;> omega
      · intro _ hne
        exact absurd rfl hne
      · intro h
        exact absurd h (by decide)
      · intro r hr
        simp only [remainingTimeQuery, hety, hsubm] at hr
        simp at hr
        split at hr <;> omega
      · intro _ hne
        exact absurd rfl hne
      · intro h
        exact absurd h (by decide)
    | some t =>
      refine ⟨?_, ?_, ?_, ?_, ?_, ?_⟩
      · intro r hr
        simp only [calculateRemainingTime, hety, hsubm] at hr
        simp at hr
        omega
      · intro _ _
        simp [calculateRemainingTime, hety, hsubm]
      · intro h
        exact absurd h (by decide)
      · intro r hr
        simp only [remainingTimeQuery, hety, hsubm] at hr
        simp at hr
        omega
      · intro _ _
        simp [remainingTimeQuery, hety, hsubm]
      · intro h
        exact absurd h (by decide)
  · refine ⟨?_, ?_, ?_, ?_, ?_, ?_⟩
    · intro r hr
      simp [calculateRemainingTime, hety] at hr
    · intro h
      exact absurd h (by decide)
    · intro _
      simp [calculateRemainingTime, hety]
    · intro r hr
      simp [remainingTimeQuery, hety] at hr
    · intro h
      exact absurd h (by decide)
    · intro _
      simp [remainingTimeQuery, hety]

/-- Witness for the amended C3: a finalized timed session gets zero, an
open untimed session gets `none`, and a concrete open timed session gets a
non-negative value. -/
theorem remainingTime_amended_witness :
    calculateRemainingTime timedExam finalizedSession 200 = some 0 ∧
    remainingTimeQuery untimedExam newSession = none ∧
    (0 : Int) ≤ 3600 := by
  refine ⟨(remainingTime_amended timedExam finalizedSession 200).2.1 rfl
    (by decide), (remainingTime_amended untimedExam newSession 0).2.2.2.2.2 rfl,
    ?_⟩
  have h := (remainingTime_amended timedExam newSession 0).2.2.2.1 3600 (by decide)
  exact h

/-! ## C9: disconnect time accounting -/

/-- C9: the channel-close handler adds exactly
`floor((now - runAt) / 1000)` to `totalTimeConsumed` (zero when `runAt` is
null), so whenever `runAt` is at or before `now` the accumulated time
never decreases. -/
theorem wsClose_time_accounting (s : Session) (now : Int) :
    ((wsClose s now).totalTimeConsumed =
      s.totalTimeConsumed +
        (match s.runAt with
         | none => 0
         | some r => Int.fdiv (now - r) 1000)) ∧
    (s.runAt = none → (wsClose s now).totalTimeConsumed = s.totalTimeConsumed) ∧
    (∀ r, s.runAt = some r → r ≤ now →
      s.totalTimeConsumed ≤ (wsClose s now).totalTimeConsumed) := by
  refine ⟨?_, ?_, ?_⟩
  · cases h : s.runAt <;> simp [wsClose, h, Int.sub_self, Int.zero_fdiv]
  · intro h
    simp [wsClose, h, Int.sub_self, Int.zero_fdiv]
  · intro r h hle
    have hnn : (0 : Int) ≤ Int.fdiv (now - r) 1000 :=
      Int.fdiv_nonneg (by omega) (by norm_num)
    simp only [wsClose, h, Option.getD_some]
    omega

/-- A running session whose run started at epoch-ms 5000. -/
def runningSession : Session :=
  { newSession with isRunning := true, runAt := some 5000 }

/-- Witness for C9 at `runningSession` closing at epoch-ms 12000. -/
theorem wsClose_time_accounting_witness :
    (wsClose runningSession 12000).totalTimeConsumed =
      runningSession.totalTimeConsumed + Int.fdiv (12000 - 5000) 1000 ∧
    runningSession.totalTimeConsumed ≤
      (wsClose runningSession 12000).totalTimeConsumed := by
  have h := wsClose_time_accounting runningSession 12000
  exact ⟨h.1, h.2.2 5000 rfl (by decide)⟩

/-! ## C5: the sequencer picks the first unanswered question -/

/-- `contains` is `false` exactly on non-members. -/
lemma contains_eq_false_iff (l : List Nat) (a : Nat) :
    l.contains a = false ↔ a ∉ l := by
  constructor
  · intro h hm
    rw [(contains_iff_mem l a).2 hm] at h
    exact Bool.noConfusion h
  · intro h
    cases hc : l.contains a
    · rfl
    · exact absurd ((contains_iff_mem l a).1 hc) h

/-- The scan returns `none` exactly when every listed question is answered. -/
lemma nextQuestionIndex_eq_none_iff (qs ans : List Nat) :
    nextQuestionIndex qs ans = none ↔ ∀ q ∈ qs, q ∈ ans := by
  induction qs with
  | nil => simp [nextQuestionIndex]
  | cons q rest ih =>
    by_cases h : q ∈ ans
    · have hc : ans.contains q = true := (contains_iff_mem ans q).2 h
      simp [nextQuestionIndex, hc, Option.map_eq_none', ih, h]
    · have hc : ans.contains q = false := (contains_eq_false_iff ans q).2 h
      simp [nextQuestionIndex, hc, h]

/-- The scan returns `some i` exactly when position `i` exists, is
unanswered, and every earlier position is answered. -/
lemma nextQuestionIndex_eq_some_iff (qs ans : List Nat) (i : Nat) :
    nextQuestionIndex qs ans = some i ↔
      i < qs.length ∧ qs.getD i 0 ∉ ans ∧ ∀ x ∈ qs.take i, x ∈ ans := by
  induction qs generalizing i with
  | nil => simp [nextQuestionIndex]
  | cons q rest ih =>
    by_cases h : q ∈ ans
    · have hc : ans.contains q = true := (contains_iff_mem ans q).2 h
      cases i with
      | zero => simp [nextQuestionIndex, hc, h]
      | succ j =>
        simp [nextQuestionIndex, hc, Option.map_eq_some', ih, h,
          List.take_succ_cons, Nat.succ_lt_succ_iff]
    · have hc : ans.contains q = false := (contains_eq_false_iff ans q).2 h
      cases i with
      | zero => simp [nextQuestionIndex, hc, h]
      | succ j => simp [nextQuestionIndex, hc, h, List.take_succ_cons]

/-- The scan only reads membership of the answered set. -/
lemma nextQuestionIndex_congr (qs ans1 ans2 : List Nat)
    (h : ∀ x, x ∈ ans1 ↔ x ∈ ans2) :
    nextQuestionIndex qs ans1 = nextQuestionIndex qs ans2 := by
  induction qs with
  | nil => rfl
  | cons q rest ih =>
    have he : ans1.contains q = ans2.contains q := by
      by_cases hq : q ∈ ans1
      · rw [(contains_iff_mem ans1 q).2 hq, (contains_iff_mem ans2 q).2 ((h q).1 hq)]
      · rw [(contains_eq_false_iff ans1 q).2 hq,
          (contains_eq_false_iff ans2 q).2 (fun hm => hq ((h q).2 hm))]
    simp only [nextQuestionIndex, he, ih]

/-- C5: the next-question scan returns the first position of the original
list whose question is not answered (reported as its index in the original
list), depends only on the membership of the answered set (so not on
submission order), returns `none` exactly when every question is answered,
and the answer route's completion flag is set exactly in that case. -/
theorem nextQuestion_sequencer_correct (questions answered : List Nat) :
    (∀ i, nextQuestionIndex questions answered = some i →
      i < questions.length ∧ questions.getD i 0 ∉ answered ∧
        ∀ x ∈ questions.take i, x ∈ answered) ∧
    (nextQuestionIndex questions answered = none ↔
      ∀ q ∈ questions, q ∈ answered) ∧
    (∀ answered2, (∀ x, x ∈ answered ↔ x ∈ answered2) →
      nextQuestionIndex questions answered = nextQuestionIndex questions answered2) ∧
    (∀ (exam : Exam) (q : Question) (v : JsVal) (s : Session)
        (answers : List AnswerRec) (freshAid : Nat) (out : SubmitAnswerOutcome),
      submitAnswer exam q v s answers freshAid = .ok out →
      out.nqIndex =
        nextQuestionIndex exam.questions (out.answers.map (fun a => a.questionId)) ∧
      (out.isLastQuestion = true ↔
        ∀ qid ∈ exam.questions, qid ∈ out.answers.map (fun a => a.questionId))) := by
  refine ⟨fun i hi => (nextQuestionIndex_eq_some_iff questions answered i).1 hi,
    nextQuestionIndex_eq_none_iff questions answered,
    fun answered2 h => nextQuestionIndex_congr questions answered answered2 h,
    ?_⟩
  intro exam q v s answers freshAid out hout
  unfold submitAnswer at hout
  split at hout
  · exact absurd hout (by simp)
  split at hout
  · exact absurd hout (by simp)
  split at hout
  · rw [Except.ok.injEq] at hout
    subst hout
    exact ⟨rfl, by simp [decide_eq_true_eq, nextQuestionIndex_eq_none_iff]⟩
  · rw [Except.ok.injEq] at hout
    subst hout
    exact ⟨rfl, by simp [decide_eq_true_eq, nextQuestionIndex_eq_none_iff]⟩

/-- Witness for C5 on the list `[10, 20, 30]` with `{30, 10}` answered in
reverse order: the scan picks index 1 (question 20). -/
theorem nextQuestion_sequencer_correct_witness :
    (1 : Nat) < ([10, 20, 30] : List Nat).length ∧
      ([10, 20, 30] : List Nat).getD 1 0 ∉ ([30, 10] : List Nat) ∧
      ∀ x ∈ ([10, 20, 30] : List Nat).take 1, x ∈ ([30, 10] : List Nat) :=
  (nextQuestion_sequencer_correct [10, 20, 30] [30, 10]).1 1 (by decide)

/-! ## C7: run-start (corrected) -/

/-- A finalized session that had been paused, for the C7 counterexample. -/
def finalizedPausedSession : Session :=
  { newSession with submittedAt := some 100, pausedAt := some 90 }

/-- C7 counterexample: the channel-connect run-start has no finalized
check — on an already-finalized session it succeeds and mutates the state
(sets the running flag, stamps the run time, clears the pause timestamp)
instead of failing with a conflict. -/
theorem runStart_no_conflict_check_cx :
    finalizedPausedSession.submittedAt ≠ none ∧
    wsConnect finalizedPausedSession 200 ≠ finalizedPausedSession ∧
    (wsConnect finalizedPausedSession 200).isRunning = true ∧
    (wsConnect finalizedPausedSession 200).runAt = some 200 ∧
    (wsConnect finalizedPausedSession 200).pausedAt = none := by
  decide

/-- C7 amended: the channel-connect run-start sets the running flag,
records the run-start time and clears the pause timestamp for any existing
session, finalized or not (no conflict check); the explicit resume call
fails with a conflict on a finalized session, and on a non-finalized
session with a question still unanswered it records only the resume
timestamp. -/
theorem runStart_amended (s : Session) (now : Int) :
    ((wsConnect s now).isRunning = true ∧
     (wsConnect s now).runAt = some now ∧
     (wsConnect s now).pausedAt = none ∧
     (wsConnect s now).submittedAt = s.submittedAt ∧
     (wsConnect s now).grade = s.grade ∧
     (wsConnect s now).totalTimeConsumed = s.totalTimeConsumed) ∧
    (∀ (exam : Exam) (answered : List Nat) (t : Int), s.submittedAt = some t →
      resumeSession exam answered s now = .error .conflict) ∧
    (∀ (exam : Exam) (answered : List Nat) (i : Nat), s.submittedAt = none →
      nextQuestionIndex exam.questions answered = some i →
      resumeSession exam answered s now = .ok { s with resumedAt := some now }) := by
  refine ⟨by simp [wsConnect], ?_, ?_⟩
  · intro exam answered t ht
    simp [resumeSession, ht]
  · intro exam answered i hs hn
    simp [resumeSession, hs, hn]

/-- Witness for the amended C7: connect marks `newSession` running, resume
conflicts on `finalizedPausedSession`, and resume on a fresh session over
`timedExam` (question 1 unanswered) stamps `resumedAt`. -/
theorem runStart_amended_witness :
    (wsConnect newSession 50).isRunning = true ∧
    resumeSession timedExam [] finalizedPausedSession 50 = .error .conflict ∧
    resumeSession timedExam [] newSession 50 =
      .ok { newSession with resumedAt := some 50 } := by
  refine ⟨(runStart_amended newSession 50).1.1,
    (runStart_amended finalizedPausedSession 50).2.1 timedExam [] 100 rfl,
    (runStart_amended newSession 50).2.2 timedExam [] 0 rfl (by decide)⟩

/-! ## C8: at most one open session per attempt (corrected) -/

/-- C8 counterexample: the sessions-router start handler has no
existing-open-session check — starting an eligible assignment that already
has one open session yields a stored list with two open sessions. -/
theorem start_creates_second_open_session_cx :
    openCount [newSession] = 1 ∧
    startSessionUnchecked aActive [newSession] 50 =
      .ok [newSession, newSession] ∧
    openCount [newSession, newSession] = 2 :=
  ⟨rfl, rfl, rfl⟩

/-- C8 amended: the start variant with the `findOne({submittedAt: null})`
guard returns the stored list unchanged (creating nothing) whenever an
open session exists, while the sessions-router start variant appends a
fresh open session unconditionally once the eligibility checks pass. -/
theorem start_session_amended (a : Assignment) (sessions : List Session)
    (now : Int) (helig : startChecks a now = none) :
    ((∃ s ∈ sessions, s.submittedAt = none) →
      startSessionGuarded a sessions now = .ok (sessions, false)) ∧
    startSessionUnchecked a sessions now = .ok (sessions ++ [newSession]) ∧
    openCount (sessions ++ [newSession]) = openCount sessions + 1 := by
  refine ⟨?_, ?_, ?_⟩
  · intro hex
    unfold startSessionGuarded
    rw [helig]
    cases hfind : sessions.find? (fun s => decide (s.submittedAt = none)) with
    | none =>
      obtain ⟨s, hs, hopen⟩ := hex
      have := List.find?_eq_none.1 hfind s hs
      simp [hopen] at this
    | some s => rfl
  · unfold startSessionUnchecked
    rw [helig]
  · simp [openCount, List.filter_append, newSession]

/-- Witness for the amended C8: with one open session stored, the guarded
start returns it without creating, and the unguarded start appends a
second open session. -/
theorem start_session_amended_witness :
    startSessionGuarded aActive [newSession] 50 = .ok ([newSession], false) ∧
    startSessionUnchecked aActive [newSession] 50 =
      .ok [newSession, newSession] ∧
    openCount [newSession, newSession] = openCount [newSession] + 1 := by
  have h := start_session_amended aActive [newSession] 50 (by decide)
  exact ⟨h.1 ⟨newSession, List.mem_singleton_self _, rfl⟩, h.2.1, h.2.2⟩

/-! ## C10: bookmark toggle -/

/-- Removing the first occurrence of a fresh element appended at the end
recovers the original list. -/
lemma removeFirstOcc_append_not_mem (l : List Nat) (qid : Nat) (h : qid ∉ l) :
    removeFirstOcc (l ++ [qid]) qid = l := by
  induction l with
  | nil => simp [removeFirstOcc]
  | cons x xs ih =>
    have hx : x ≠ qid := fun e => h (e ▸ List.mem_cons_self x xs)
    have hxs : qid ∉ xs := fun hh => h (List.mem_cons_of_mem _ hh)
    simp [removeFirstOcc, hx, ih hxs]

/-- On a duplicate-free list, removing the first occurrence removes the
element exactly. -/
lemma mem_removeFirstOcc_nodup (l : List Nat) (qid x : Nat) (hnd : l.Nodup) :
    x ∈ removeFirstOcc l qid ↔ x ∈ l ∧ x ≠ qid := by
  induction l with
  | nil => simp [removeFirstOcc]
  | cons y ys ih =>
    rcases List.nodup_cons.1 hnd with ⟨hy, hys⟩
    by_cases hyq : y = qid
    · subst hyq
      simp only [removeFirstOcc, if_pos rfl, List.mem_cons]
      constructor
      · intro hx
        exact ⟨Or.inr hx, fun e => hy (e ▸ hx)⟩
      · rintro ⟨rfl | hx, hne⟩
        · exact absurd rfl hne
        · exact hx
    · simp only [removeFirstOcc, if_neg hyq, List.mem_cons, ih hys]
      constructor
      · rintro (rfl | ⟨hx, hne⟩)
        · exact ⟨Or.inl rfl, hyq⟩
        · exact ⟨Or.inr hx, hne⟩
      · rintro ⟨rfl | hx, hne⟩
        · exact Or.inl rfl
        · exact Or.inr ⟨hx, hne⟩

/-- On a non-finalized session and an exam question, the toggle branches
only on current membership: remove the first occurrence when present,
append when absent. -/
lemma toggleBookmark_eq (exam : Exam) (s : Session) (qid : Nat)
    (hsub : s.submittedAt = none) (hmem : qid ∈ exam.questions) :
    toggleBookmark exam s qid =
      if qid ∈ s.bookmarkedQuestions then
        .ok ({ s with
                bookmarkedQuestions := removeFirstOcc s.bookmarkedQuestions qid },
             false)
      else
        .ok ({ s with bookmarkedQuestions := s.bookmarkedQuestions ++ [qid] },
             true) := by
  by_cases h : qid ∈ s.bookmarkedQuestions
  · have hc : s.bookmarkedQuestions.contains qid = true :=
      (contains_iff_mem _ _).2 h
    simp [toggleBookmark, hsub, hmem, hc, h]
  · have hc : s.bookmarkedQuestions.contains qid = false :=
      (contains_eq_false_iff _ _).2 h
    simp [toggleBookmark, hsub, hmem, hc, h]

/-- C10: on a non-finalized session and a question of its exam, the toggle
appends the question exactly when absent and removes its (first, hence
under no-duplicates only) occurrence exactly when present, and toggling
twice restores the bookmarked set's membership. -/
theorem toggleBookmark_involutive (exam : Exam) (s : Session) (qid : Nat)
    (hsub : s.submittedAt = none)
    (hmem : exam.questions.contains qid = true)
    (hnd : s.bookmarkedQuestions.Nodup) :
    (qid ∉ s.bookmarkedQuestions →
      toggleBookmark exam s qid =
        .ok ({ s with bookmarkedQuestions := s.bookmarkedQuestions ++ [qid] },
             true)) ∧
    (qid ∈ s.bookmarkedQuestions →
      toggleBookmark exam s qid =
        .ok ({ s with
                bookmarkedQuestions := removeFirstOcc s.bookmarkedQuestions qid },
             false) ∧
      qid ∉ removeFirstOcc s.bookmarkedQuestions qid ∧
      (∀ x, x ∈ removeFirstOcc s.bookmarkedQuestions qid ↔
        x ∈ s.bookmarkedQuestions ∧ x ≠ qid)) ∧
    (∀ s1 b1 s2 b2, toggleBookmark exam s qid = .ok (s1, b1) →
      toggleBookmark exam s1 qid = .ok (s2, b2) →
      ∀ x, x ∈ s2.bookmarkedQuestions ↔ x ∈ s.bookmarkedQuestions) := by
  have hmemP : qid ∈ exam.questions := (contains_iff_mem _ _).1 hmem
  refine ⟨?_, ?_, ?_⟩
  · intro h
    rw [toggleBookmark_eq exam s qid hsub hmemP, if_neg h]
  · intro h
    refine ⟨by rw [toggleBookmark_eq exam s qid hsub hmemP, if_pos h], ?_,
      fun x => mem_removeFirstOcc_nodup _ _ _ hnd⟩
    intro hin
    exact ((mem_removeFirstOcc_nodup _ _ _ hnd).1 hin).2 rfl
  · intro s1 b1 s2 b2 h1 h2 x
    rw [toggleBookmark_eq exam s qid hsub hmemP] at h1
    by_cases h : qid ∈ s.bookmarkedQuestions
    · rw [if_pos h, Except.ok.injEq, Prod.mk.injEq] at h1
      obtain ⟨hs1, _⟩ := h1
      subst hs1
      have hnotin : qid ∉ removeFirstOcc s.bookmarkedQuestions qid := by
        intro hin
        exact ((mem_removeFirstOcc_nodup _ _ _ hnd).1 hin).2 rfl
      rw [toggleBookmark_eq exam
        { s with bookmarkedQuestions := removeFirstOcc s.bookmarkedQuestions qid }
        qid hsub hmemP] at h2
      rw [if_neg hnotin, Except.ok.injEq, Prod.mk.injEq] at h2
      obtain ⟨hs2, _⟩ := h2
      subst hs2
      simp only [List.mem_append, List.mem_singleton,
        mem_removeFirstOcc_nodup _ _ _ hnd]
      constructor
      · rintro (⟨hx, _⟩ | rfl)
        · exact hx
        · exact h
      · intro hx
        by_cases hxq : x = qid
        · exact Or.inr hxq
        · exact Or.inl ⟨hx, hxq⟩
    · rw [if_neg h, Except.ok.injEq, Prod.mk.injEq] at h1
      obtain ⟨hs1, _⟩ := h1
      subst hs1
      have hin2 : qid ∈ s.bookmarkedQuestions ++ [qid] :=
        List.mem_append_right _ (List.mem_singleton_self _)
      rw [toggleBookmark_eq exam
        { s with bookmarkedQuestions := s.bookmarkedQuestions ++ [qid] }
        qid hsub hmemP] at h2
      rw [if_pos hin2, Except.ok.injEq, Prod.mk.injEq] at h2
      obtain ⟨hs2, _⟩ := h2
      subst hs2
      rw [removeFirstOcc_append_not_mem _ _ h]

/-- A session bookmarking questions 2 and 1. -/
def bookmarkedSession : Session :=
  { newSession with bookmarkedQuestions := [2, 1] }

/-- Witness for C10 on `bookmarkedSession` and question 1 of `timedExam`:
the toggle removes 1, and toggling twice restores the membership. -/
theorem toggleBookmark_involutive_witness :
    toggleBookmark timedExam bookmarkedSession 1 =
      .ok ({ bookmarkedSession with bookmarkedQuestions := [2] }, false) ∧
    (∀ x, x ∈ ([2, 1] : List Nat) ↔ x ∈ bookmarkedSession.bookmarkedQuestions) := by
  have h := toggleBookmark_involutive timedExam bookmarkedSession 1 rfl
    (by decide) (by decide)
  have h1 := (h.2.1 (by decide)).1
  refine ⟨h1, ?_⟩
  have h2 := h.2.2 { bookmarkedSession with bookmarkedQuestions := [2] } false
    { bookmarkedSession with bookmarkedQuestions := [2, 1] } true h1 rfl
  exact h2

end AvExam
